import Mathlib

/-
Verification of the strudel-cli sample subsystem: a shallow embedding of
`src/samples/cache.js` (class `SampleCache`) and `src/samples/downloader.js`
(class `SampleDownloader`), together with proofs settling the frozen claims
about them.

Modelling conventions:
* Bytes are `Nat` values (< 256 in practice); byte buffers are `List Nat`.
* The filesystem under the cache root is an association list from
  cache-relative path to file content.  Node's `path.join(cacheDir, p)` is
  dropped: all paths are kept cache-relative, which is a bijective renaming.
* JS objects used as maps (`manifest.samples`, `manifest.urls`,
  `manifest.packs`) are association lists with JS object semantics:
  updating an existing key keeps its position, a new key is appended at the
  end, `delete` removes the key.  `Object.entries` order is the list order.
* Timestamps (`new Date().toISOString()`) are `Nat` values supplied by an
  `Env`; ISO-8601 strings of a monotone clock compare like their numeric
  epoch values, and `new Date(s)` inverts `toISOString`, so sorting by the
  revived `Date` is sorting by the `Nat` timestamp.
* `crypto.createHash('sha256')` incremental hashing is concatenative, so a
  hash object is modelled by the list of bytes fed to it and `digest('hex')`
  by `sha256hex` below, a direct implementation of FIPS 180-4 SHA-256 with
  lowercase hexadecimal output, as produced by Node.
* The cleanup threshold `maxSizeBytes * 0.8` is modelled by the exact
  rational comparison `5 * current <= 4 * maxSizeBytes`; IEEE-754 rounding
  of the literal product (at most one ulp) is not modelled.
* `logger` calls have no observable effect and are dropped.  The manifest
  file on disk is the `savedManifest` field; `_saveManifest`'s
  `fs.writeFile` succeeds iff `Env.saveOk` (its `catch` block only logs, so
  no error escapes, which the model mirrors by returning the state).
-/

/-- 32-bit truncation, `x >>> 0`-style: all SHA-256 words live below 2^32. -/
def w32 (x : Nat) : Nat := x % 4294967296

/-- Rotate a 32-bit word right by `n` bit positions. -/
def rotr32 (n x : Nat) : Nat := w32 ((x >>> n) ||| (x <<< (32 - n)))

/-- SHA-256 small sigma 0. -/
def ssig0 (x : Nat) : Nat := (rotr32 7 x) ^^^ (rotr32 18 x) ^^^ (x >>> 3)

/-- SHA-256 small sigma 1. -/
def ssig1 (x : Nat) : Nat := (rotr32 17 x) ^^^ (rotr32 19 x) ^^^ (x >>> 10)

/-- SHA-256 big sigma 0. -/
def bsig0 (x : Nat) : Nat := (rotr32 2 x) ^^^ (rotr32 13 x) ^^^ (rotr32 22 x)

/-- SHA-256 big sigma 1. -/
def bsig1 (x : Nat) : Nat := (rotr32 6 x) ^^^ (rotr32 11 x) ^^^ (rotr32 25 x)

/-- The 64 SHA-256 round constants of FIPS 180-4 (decimal). -/
def k256 : List Nat :=
  [1116352408, 1899447441, 3049323471, 3921009573, 961987163,
   1508970993, 2453635748, 2870763221, 3624381080, 310598401,
   607225278, 1426881987, 1925078388, 2162078206, 2614888103,
   3248222580, 3835390401, 4022224774, 264347078, 604807628,
   770255983, 1249150122, 1555081692, 1996064986, 2554220882,
   2821834349, 2952996808, 3210313671, 3336571891, 3584528711,
   113926993, 338241895, 666307205, 773529912, 1294757372,
   1396182291, 1695183700, 1986661051, 2177026350, 2456956037,
   2730485921, 2820302411, 3259730800, 3345764771, 3516065817,
   3600352804, 4094571909, 275423344, 430227734, 506948616,
   659060556, 883997877, 958139571, 1322822218, 1537002063,
   1747873779, 1955562222, 2024104815, 2227730452, 2361852424,
   2428436474, 2756734187, 3204031479, 3329325298]

/-- The eight SHA-256 initial hash words (decimal). -/
def h256 : List Nat :=
  [1779033703, 3144134277, 1013904242, 2773480762,
   1359893119, 2600822924, 528734635, 1541459225]

/-- Big-endian 8-byte encoding of a length in bits. -/
def beBytes8 (n : Nat) : List Nat :=
  [(n >>> 56) % 256, (n >>> 48) % 256, (n >>> 40) % 256, (n >>> 32) % 256,
   (n >>> 24) % 256, (n >>> 16) % 256, (n >>> 8) % 256, n % 256]

/-- Group a padded byte list into big-endian 32-bit words. -/
def beWords : List Nat → List Nat
  | b0 :: b1 :: b2 :: b3 :: rest => (((b0 * 256 + b1) * 256 + b2) * 256 + b3) :: beWords rest
  | _ => []

/-- FIPS 180-4 padding: append 0x80, zeros to 56 mod 64, then the bit length. -/
def padMessage (msg : List Nat) : List Nat :=
  let len := msg.length
  msg ++ [128] ++ List.replicate ((119 - len % 64) % 64) 0 ++ beBytes8 (8 * len)

/-- Extend the 16 block words by `n` further schedule words. -/
def scheduleExtend : Nat → List Nat → List Nat
  | 0, w => w
  | n + 1, w =>
      let i := w.length
      let nw := w32 (w.getD (i - 16) 0 + ssig0 (w.getD (i - 15) 0)
        + w.getD (i - 7) 0 + ssig1 (w.getD (i - 2) 0))
      scheduleExtend n (w ++ [nw])

/-- One SHA-256 round on the eight working variables. -/
def round256 (st : List Nat) (wk : Nat × Nat) : List Nat :=
  match st with
  | [a, b, c, d, e, f, g, hh] =>
      let ch := (e &&& f) ^^^ ((e ^^^ 4294967295) &&& g)
      let t1 := w32 (hh + bsig1 e + ch + wk.2 + wk.1)
      let mj := (a &&& b) ^^^ (a &&& c) ^^^ (b &&& c)
      let t2 := w32 (bsig0 a + mj)
      [w32 (t1 + t2), a, b, c, w32 (d + t1), e, f, g]
  | other => other

/-- Compress one 64-byte block into the running hash state. -/
def compressBlock (h : List Nat) (block : List Nat) : List Nat :=
  let w := scheduleExtend 48 (beWords block)
  let fin := (w.zip k256).foldl round256 h
  List.zipWith (fun a b => w32 (a + b)) h fin

/-- Fold the compression function over the 64-byte blocks of a padded message.
The fuel argument (instantiated with the padded length, an upper bound on the
block count) only makes the recursion structural; it is never exhausted. -/
def sha256Go : Nat → List Nat → List Nat → List Nat
  | _, h, [] => h
  | 0, h, _ :: _ => h
  | fuel + 1, h, b :: rest => sha256Go fuel (compressBlock h ((b :: rest).take 64)) (rest.drop 63)

/-- Lowercase hexadecimal digits. -/
def hexDigits : List Char := "0123456789abcdef".data

/-- Render one 32-bit word as 8 lowercase hex characters. -/
def hexWord (x : Nat) : List Char :=
  [hexDigits.getD ((x >>> 28) % 16) '0', hexDigits.getD ((x >>> 24) % 16) '0',
   hexDigits.getD ((x >>> 20) % 16) '0', hexDigits.getD ((x >>> 16) % 16) '0',
   hexDigits.getD ((x >>> 12) % 16) '0', hexDigits.getD ((x >>> 8) % 16) '0',
   hexDigits.getD ((x >>> 4) % 16) '0', hexDigits.getD (x % 16) '0']

/-- Lowercase-hex SHA-256 of a byte list: the model of
`crypto.createHash('sha256').update(data).digest('hex')` in both
`SampleCache._hashBuffer` and `SampleDownloader._hashBuffer`. -/
def sha256hex (msg : List Nat) : String :=
  let padded := padMessage msg
  String.mk (((sha256Go padded.length h256 padded).map hexWord).foldr List.append [])

/-- Lookup in a JS-object-style association list (first matching key). -/
def alGet {α : Type} : List (String × α) → String → Option α
  | [], _ => none
  | (k2, v) :: rest, k => if k2 = k then some v else alGet rest k

/-- JS object assignment `o[k] = v`: replace in place if the key exists,
append at the end otherwise. -/
def alSet {α : Type} : List (String × α) → String → α → List (String × α)
  | [], k, v => [(k, v)]
  | (k2, v2) :: rest, k, v =>
      if k2 = k then (k, v) :: rest else (k2, v2) :: alSet rest k v

/-- JS `delete o[k]`: drop the (unique, under the no-duplicate-keys
invariant) entry for the key. -/
def alErase {α : Type} : List (String × α) → String → List (String × α)
  | [], _ => []
  | (k2, v2) :: rest, k => if k2 = k then rest else (k2, v2) :: alErase rest k

/-- One `manifest.samples` entry: `{size, hash, cachedAt, lastAccessed}`. -/
structure SampleMeta where
  size : Nat
  hash : String
  cachedAt : Nat
  lastAccessed : Nat
deriving Repr, DecidableEq

/-- One `manifest.packs` entry: `{path, hash, downloadedAt}` (the optional
`extractedTo`/`files` fields added by archive extraction are outside the
modelled fragment, see `downloadPack`). -/
structure PackMeta where
  path : String
  hash : String
  downloadedAt : Nat
deriving Repr, DecidableEq

/-- The cache manifest aggregate (`version`/`createdAt` metadata fields are
constant strings and carry no behaviour, so they are dropped). -/
structure Manifest where
  samples : List (String × SampleMeta)
  urls : List (String × String)
  packs : List (String × PackMeta)
deriving Repr, DecidableEq

/-- A `SampleCache` instance together with the filesystem under its cache
root: `fs` maps cache-relative paths to file bytes, `savedManifest` is the
content of `manifest.json` on disk, `maxSizeMB` is
`config.get('samples.cacheSizeMB') || 1000`. -/
structure CacheState where
  fs : List (String × List Nat)
  manifest : Manifest
  savedManifest : Option Manifest
  maxSizeMB : Nat
deriving Repr, DecidableEq

/-- Ambient effects of one operation: `now` is the timestamp produced by
`new Date()`, `saveOk` tells whether `fs.writeFile` of the manifest file
succeeds (false models disk-full/permission-denied on the manifest path). -/
structure Env where
  now : Nat
  saveOk : Bool
deriving Repr, DecidableEq

/-- `_saveManifest`: serialize the in-memory manifest to `manifest.json`.
The source wraps the write in try/catch and only logs on failure, so the
operation never propagates an error; a failed write leaves the on-disk
manifest untouched. -/
def saveManifest (env : Env) (s : CacheState) : CacheState :=
  if env.saveOk then { s with savedManifest := some s.manifest } else s

/-- The total recorded size, as computed by `getStats().totalSize`:
the sum of manifest-recorded `size` fields. -/
def totalSize (m : Manifest) : Nat := (m.samples.map (fun e => e.2.size)).sum

/-- `removeSample(samplePath)`: guarded by `existsSync(cachedPath)` — when
the cached file exists, unlink it, delete the manifest entry, drop every
`urls` entry mapping to this path, and persist; otherwise do nothing. -/
def removeSample (env : Env) (s : CacheState) (p : String) : CacheState :=
  if (alGet s.fs p).isSome then
    saveManifest env
      { s with
        fs := alErase s.fs p,
        manifest :=
          { s.manifest with
            samples := alErase s.manifest.samples p,
            urls := s.manifest.urls.filter (fun e => decide (¬ e.2 = p)) } }
  else s

/-- `updateAccessTime(samplePath)`: set `lastAccessed` to now and persist if
the manifest entry exists, silently do nothing otherwise. -/
def updateAccessTime (env : Env) (s : CacheState) (p : String) : CacheState :=
  match alGet s.manifest.samples p with
  | some meta =>
      saveManifest env
        { s with
          manifest :=
            { s.manifest with
              samples := alSet s.manifest.samples p { meta with lastAccessed := env.now } } }
  | none => s

/-- The `{path, size, lastAccessed}` snapshot `_cleanupCache` builds for each
manifest entry (the other spread fields are unused by the cleanup). -/
structure EvEntry where
  path : String
  size : Nat
  lastAccessed : Nat
deriving Repr, DecidableEq

/-- `Object.entries(this.manifest.samples).map(...)`, in object insertion
order. -/
def snapshotEntries (m : Manifest) : List EvEntry :=
  m.samples.map (fun e => { path := e.1, size := e.2.size, lastAccessed := e.2.lastAccessed })

/-- Insert into an ascending-by-`lastAccessed` list, after existing entries
with an equal or smaller key. -/
def insEntry (x : EvEntry) : List EvEntry → List EvEntry
  | [] => [x]
  | y :: ys => if y.lastAccessed ≤ x.lastAccessed then y :: insEntry x ys else x :: y :: ys

/-- `samples.sort((a, b) => a.lastAccessed - b.lastAccessed)`: a stable
ascending sort by `lastAccessed` (JS `Array.prototype.sort` is stable),
realised as left-to-right insertion. -/
def sortEntries (l : List EvEntry) : List EvEntry := l.foldl (fun acc x => insEntry x acc) []

/-- Sum of the snapshot sizes, `samples.reduce((sum, s) => sum + s.size, 0)`. -/
def sufSum (l : List EvEntry) : Nat := (l.map EvEntry.size).sum

/-- The `for (const sample of samples)` loop of `_cleanupCache`: stop once
`currentSize <= maxSizeBytes * 0.8` (exact rational form
`5 * current <= 4 * maxBytes`), otherwise remove the sample via the standard
`removeSample` path and subtract its recorded size from the running total. -/
def evictLoop (env : Env) (maxBytes : Nat) : List EvEntry → Nat → CacheState → CacheState
  | [], _, s => s
  | e :: rest, cur, s =>
      if 5 * cur ≤ 4 * maxBytes then s
      else evictLoop env maxBytes rest (cur - e.size) (removeSample env s e.path)

/-- `_cleanupCache()`: snapshot the entries, sort oldest-first by
`lastAccessed`, then walk the sorted list evicting until at or below 80% of
the cap. -/
def cleanupCache (env : Env) (s : CacheState) : CacheState :=
  let sorted := sortEntries (snapshotEntries s.manifest)
  evictLoop env (s.maxSizeMB * 1048576) sorted (sufSum sorted) s

/-- `_checkCacheSize()`: run the LRU cleanup only when the recorded total
strictly exceeds `maxSizeMB * 1024 * 1024` bytes. -/
def checkCacheSize (env : Env) (s : CacheState) : CacheState :=
  if s.maxSizeMB * 1048576 < totalSize s.manifest then cleanupCache env s else s

/-- The manifest entry `addSample` writes: `fs.stat` size of the bytes just
written, their SHA-256, and `cachedAt`/`lastAccessed` both set to now (the
source always overwrites `cachedAt`, also for a pre-existing entry). -/
def newSampleMeta (env : Env) (data : List Nat) : SampleMeta :=
  { size := data.length, hash := sha256hex data, cachedAt := env.now, lastAccessed := env.now }

/-- The in-memory manifest right after `addSample`'s entry upsert. -/
def manifestAfterAdd (env : Env) (s : CacheState) (p : String) (data : List Nat) : Manifest :=
  { s.manifest with samples := alSet s.manifest.samples p (newSampleMeta env data) }

/-- `addSample(samplePath, data)`: write the file, upsert the manifest
entry, persist, then run the size check; returns the cached path (kept
cache-relative here). -/
def addSample (env : Env) (s : CacheState) (p : String) (data : List Nat) :
    CacheState × String :=
  let s1 := { s with fs := alSet s.fs p data, manifest := manifestAfterAdd env s p data }
  (checkCacheSize env (saveManifest env s1), p)

/-- `clear()`: snapshot the sample keys, then remove each via
`removeSample`. -/
def clearCache (env : Env) (s : CacheState) : CacheState :=
  (s.manifest.samples.map Prod.fst).foldl (fun st p => removeSample env st p) s

/-- `verifySample(samplePath)`: false when the manifest entry or the on-disk
file is missing, else compare the recomputed SHA-256 with the recorded one. -/
def verifySample (s : CacheState) (p : String) : Bool :=
  match alGet s.manifest.samples p with
  | none => false
  | some meta =>
      match alGet s.fs p with
      | none => false
      | some data => sha256hex data == meta.hash

/-- `getByUrl(url)`: null on a missing `urls` entry or missing file;
otherwise touch the sample's access time (which persists the manifest) and
read the file. -/
def getByUrl (env : Env) (s : CacheState) (url : String) :
    CacheState × Option (List Nat) :=
  match alGet s.manifest.urls url with
  | none => (s, none)
  | some rel =>
      if (alGet s.fs rel).isSome then
        let s1 := updateAccessTime env s rel
        (s1, alGet s1.fs rel)
      else (s, none)

/-- Characters strictly before the first occurrence of `sep`. -/
def upToChar (sep : Char) : List Char → List Char
  | [] => []
  | c :: rest => if c = sep then [] else c :: upToChar sep rest

/-- Characters after the last occurrence of `sep` (the whole text if `sep`
is absent), via a left-to-right scan. -/
def lastSegAux (sep : Char) : List Char → List Char → List Char
  | acc, [] => acc.reverse
  | acc, c :: rest =>
      if c = sep then lastSegAux sep [] rest else lastSegAux sep (c :: acc) rest

/-- The filename `setByUrl` derives:
`path.basename(new URL(url).pathname) || sample-<now>`, modelled for
well-formed http(s) URLs as the last `/`-separated component with query and
fragment stripped. -/
def urlFileName (env : Env) (url : String) : String :=
  let base := lastSegAux '/' [] (upToChar '?' (upToChar '#' url.data))
  if base = [] then "sample-" ++ toString env.now else String.mk base

/-- `setByUrl(url, data)`: store under `remote/<basename>` via `addSample`,
then record the URL mapping and persist. -/
def setByUrl (env : Env) (s : CacheState) (url : String) (data : List Nat) :
    CacheState × String :=
  let rel := "remote/" ++ urlFileName env url
  let r := addSample env s rel data
  let s2 := { r.1 with manifest := { r.1.manifest with urls := alSet r.1.manifest.urls url rel } }
  (saveManifest env s2, r.2)

/-- A remote endpoint as the downloader observes it: the request's optional
`Range: bytes=<start>-` header determines the status code and body bytes of
the response. -/
def Server : Type := Option Nat → Nat × List Nat

/-- Downloader failures (`new Error(...)` values thrown by the source,
distinguished by message shape). -/
inductive DlError where
  | httpStatus (code : Nat)
  | checksumMismatch (expected got : String)
deriving Repr, DecidableEq

/-- The `_streamToFile` run with `start = 0`: fresh download. The
`createWriteStream(destPath, {flags: 'w'})` made at promise construction
truncates/creates the destination before the response arrives; a non-200/206
status rejects without unlinking; otherwise the body is streamed to the file
and the finalized digest covers exactly the body.  With an expected hash, a
disagreeing digest unlinks the destination and fails. -/
def streamFresh (server : Server) (fs : List (String × List Nat)) (dest : String)
    (expectedHash : Option String) : List (String × List Nat) × Except DlError String :=
  let fs1 := alSet fs dest []
  let resp := server none
  if resp.1 = 200 ∨ resp.1 = 206 then
    let fs2 := alSet fs1 dest resp.2
    let digest := sha256hex resp.2
    match expectedHash with
    | some h =>
        if digest = h then (fs2, Except.ok digest)
        else (alErase fs2 dest, Except.error (DlError.checksumMismatch h digest))
    | none => (fs2, Except.ok digest)
  else (fs1, Except.error (DlError.httpStatus resp.1))

/-- The `Range` header `_streamToFile` sends: `bytes=<start>-` exactly when
the stat'ed existing size is positive and resume is enabled
(`requestOptions = start > 0 ? {headers: {Range: ...}} : {}`). -/
def streamRangeHeader (fs : List (String × List Nat)) (dest : String) (resume : Bool) :
    Option Nat :=
  let start := if resume then (match alGet fs dest with | some b => b.length | none => 0) else 0
  if start = 0 then none else some start

/-- `_streamToFile(url, destPath, {onProgress, expectedHash, resume})`.
With `start = 0` this is `streamFresh`.  With `start > 0` the running hash
is seeded with the existing bytes and the request carries
`Range: bytes=<start>-`:
* a 200 answer means the server ignored the range; the file is truncated and
  the transfer restarted via the recursive call with resume disabled — but
  the outer invocation then still finalizes its own hash object (seeded with
  the stale partial bytes and never fed the restarted stream) and applies
  the expected-hash check to that digest;
* a 206 answer appends the body and finalizes over seed ++ body;
* anything else rejects without touching the file.
Progress callbacks are unobservable and dropped.  The result pair carries
the final filesystem and either the digest or the thrown error. -/
def streamToFile (server : Server) (fs : List (String × List Nat)) (dest : String)
    (expectedHash : Option String) (resume : Bool) :
    List (String × List Nat) × Except DlError String :=
  let start := if resume then (match alGet fs dest with | some b => b.length | none => 0) else 0
  if start = 0 then streamFresh server fs dest expectedHash
  else
    let seed := (alGet fs dest).getD []
    let resp := server (some start)
    if resp.1 = 200 then
      match streamFresh server (alSet fs dest []) dest expectedHash with
      | (fs2, Except.error e) => (fs2, Except.error e)
      | (fs2, Except.ok _) =>
          let digest := sha256hex seed
          match expectedHash with
          | some h =>
              if digest = h then (fs2, Except.ok digest)
              else (alErase fs2 dest, Except.error (DlError.checksumMismatch h digest))
          | none => (fs2, Except.ok digest)
    else if resp.1 = 206 then
      let fs2 := alSet fs dest (seed ++ resp.2)
      let digest := sha256hex (seed ++ resp.2)
      match expectedHash with
      | some h =>
          if digest = h then (fs2, Except.ok digest)
          else (alErase fs2 dest, Except.error (DlError.checksumMismatch h digest))
      | none => (fs2, Except.ok digest)
    else (fs, Except.error (DlError.httpStatus resp.1))

/-- The guard `options.expectedHash && hash !== options.expectedHash`. -/
def hashMismatch (expectedHash : Option String) (hash : String) : Bool :=
  match expectedHash with
  | some h => decide (¬ hash = h)
  | none => false

/-- `downloadSample(url, destination, {expectedHash})`: single-shot GET to a
fresh temp file (`tempName` stands for the random
`.download-<time>-<nonce>` name), whole-buffer hash check, then
`cache.addSample`, `urls[url] = destination`, persist, and unlink of the
temp file.  A non-200 status rejects (leaving the created temp file, as the
source does); a hash mismatch unlinks the temp file and fails before any
cache mutation. -/
def downloadSample (env : Env) (server : Server) (s : CacheState)
    (url dest tempName : String) (expectedHash : Option String) :
    CacheState × Except DlError String :=
  let resp := server none
  let s1 := { s with fs := alSet s.fs tempName [] }
  if resp.1 = 200 then
    let s2 := { s1 with fs := alSet s1.fs tempName resp.2 }
    if hashMismatch expectedHash (sha256hex resp.2) then
      ({ s2 with fs := alErase s2.fs tempName },
       Except.error (DlError.checksumMismatch (expectedHash.getD "") (sha256hex resp.2)))
    else
      let r := addSample env s2 dest resp.2
      let s4 := { r.1 with manifest := { r.1.manifest with urls := alSet r.1.manifest.urls url dest } }
      let s5 := saveManifest env s4
      ({ s5 with fs := alErase s5.fs tempName }, Except.ok r.2)
  else (s1, Except.error (DlError.httpStatus resp.1))

/-- `path.basename(url)` as used by `downloadPack` (applied to the raw URL
string): the text after the last slash (Node's trailing-slash corner cases
are outside the modelled fragment). -/
def urlBase (url : String) : String := String.mk (lastSegAux '/' [] url.data)

/-- The pack destination `packs/<basename(url)>/<basename(url)>`, kept
cache-relative. -/
def packTarget (url : String) : String :=
  "packs/" ++ urlBase url ++ "/" ++ urlBase url

/-- `downloadPack(url, {expectedHash, extract: false})`: resumable stream to
the pack target, then record `urls[url] = targetPath` and
`packs[url] = {path, hash, downloadedAt}` and persist.  The recorded hash is
the stream result's digest (a 64-character hex string, always truthy, so the
re-hash fallback is dead code).  Archive extraction (external `unzip`/`tar`
plus extracted-file hashing) only augments the pack record and is outside
the modelled fragment, hence the `extract: false` call shape. -/
def downloadPack (env : Env) (server : Server) (s : CacheState) (url : String)
    (expectedHash : Option String) : CacheState × Except DlError String :=
  let target := packTarget url
  match streamToFile server s.fs target expectedHash true with
  | (fs1, Except.error e) => ({ s with fs := fs1 }, Except.error e)
  | (fs1, Except.ok digest) =>
      let s1 := { s with fs := fs1 }
      let s2 := { s1 with
        manifest := { s1.manifest with
          urls := alSet s1.manifest.urls url target,
          packs := alSet s1.manifest.packs url
            { path := target, hash := digest, downloadedAt := env.now } } }
      (saveManifest env s2, Except.ok target)

/-- The urls-index invariant of the spec: every `urls` value names an
existing `samples` key. -/
def urlInv (m : Manifest) : Prop :=
  ∀ e ∈ m.urls, (alGet m.samples e.2).isSome = true

/-- The number of entries the `_cleanupCache` walk removes from a sorted
snapshot, starting from running total `cur`: it mirrors the loop's stopping
condition. -/
def evictCount (maxBytes : Nat) : List EvEntry → Nat → Nat
  | [], _ => 0
  | e :: rest, cur =>
      if 5 * cur ≤ 4 * maxBytes then 0 else evictCount maxBytes rest (cur - e.size) + 1

/-- The eviction count of a state: how many oldest-first entries
`_cleanupCache` removes when invoked on it. -/
def evictCountOf (s : CacheState) : Nat :=
  evictCount (s.maxSizeMB * 1048576) (sortEntries (snapshotEntries s.manifest))
    (sufSum (sortEntries (snapshotEntries s.manifest)))

/-- The paths of the minimal oldest-first segment `_cleanupCache` evicts. -/
def evictedPathsOf (s : CacheState) : List String :=
  ((sortEntries (snapshotEntries s.manifest)).take (evictCountOf s)).map EvEntry.path

/-- A Range-honouring server over a fixed payload: plain GET gets 200 with
the whole payload, `Range: bytes=k-` gets 206 with the suffix from `k`. -/
def rangeServer (payload : List Nat) : Server :=
  fun r =>
    match r with
    | none => (200, payload)
    | some k => (206, payload.drop k)

/-- A server that ignores the Range header and always answers 200 with the
full payload. -/
def always200 (payload : List Nat) : Server := fun _ => (200, payload)

/-- The empty manifest shape. -/
def mEmpty : Manifest := { samples := [], urls := [], packs := [] }

/-- A freshly initialized cache with the default 1000 MB cap. -/
def st0 : CacheState :=
  { fs := [], manifest := mEmpty, savedManifest := some mEmpty, maxSizeMB := 1000 }

/-- A fixed environment with a working manifest write. -/
def env0 : Env := { now := 3, saveOk := true }

/-- An environment in which writing `manifest.json` fails (disk
full/permission denied). -/
def envNoSave : Env := { now := 7, saveOk := false }

/-- An empty cache whose cap is 1 MB. -/
def cacheOneMB : CacheState :=
  { fs := [], manifest := mEmpty, savedManifest := none, maxSizeMB := 1 }

/-- A payload one byte over the 1 MB cap. -/
def bigPayload : List Nat := List.replicate 1048577 0

/-- A 1 MB-cap cache holding three samples whose recorded sizes total
1,200,000 bytes, with distinct access times (oldest: `b`). -/
def c3state : CacheState :=
  { fs := [("a", [0]), ("b", [0]), ("c", [0])],
    manifest :=
      { samples :=
          [("a", { size := 400000, hash := "ha", cachedAt := 0, lastAccessed := 5 }),
           ("b", { size := 500000, hash := "hb", cachedAt := 0, lastAccessed := 1 }),
           ("c", { size := 300000, hash := "hc", cachedAt := 0, lastAccessed := 3 })],
        urls := [], packs := [] },
    savedManifest := none, maxSizeMB := 1 }

/-- A state whose manifest holds an entry for `p` while the cached file is
gone from disk (out-of-band deletion). -/
def c6state : CacheState :=
  { fs := [],
    manifest :=
      { samples := [("p", { size := 1, hash := "h", cachedAt := 0, lastAccessed := 0 })],
        urls := [], packs := [] },
    savedManifest := none, maxSizeMB := 1000 }

/-- A state holding one cached sample for `p` recorded at time 1. -/
def c7state : CacheState :=
  { fs := [("p", [0])],
    manifest :=
      { samples := [("p", { size := 1, hash := "x", cachedAt := 1, lastAccessed := 1 })],
        urls := [], packs := [] },
    savedManifest := none, maxSizeMB := 1000 }

/-- A state with one cached sample reachable through a `urls` mapping. -/
def c10state : CacheState :=
  { fs := [("remote/a.wav", [9, 9])],
    manifest :=
      { samples := [("remote/a.wav", { size := 2, hash := "h", cachedAt := 1, lastAccessed := 1 })],
        urls := [("http://h/a.wav", "remote/a.wav")], packs := [] },
    savedManifest := none, maxSizeMB := 1000 }

/-! Association-list lemmas (JS object semantics). -/

theorem alGet_alSet_self {α : Type} (l : List (String × α)) (k : String) (v : α) :
    alGet (alSet l k v) k = some v := by
  induction l with
  | nil => simp [alGet, alSet]
  | cons head tail ih =>
      obtain ⟨k2, v2⟩ := head
      by_cases h : k2 = k <;> simp [alGet, alSet, h, ih]

theorem alGet_alSet_ne {α : Type} (l : List (String × α)) (k q : String) (v : α)
    (h : ¬ q = k) : alGet (alSet l k v) q = alGet l q := by
  have h' : ¬ k = q := fun hh => h hh.symm
  induction l with
  | nil => simp [alGet, alSet, h']
  | cons head tail ih =>
      obtain ⟨k2, v2⟩ := head
      by_cases h2 : k2 = k
      · subst h2
        simp [alGet, alSet, h']
      · simp [alGet, alSet, h2, ih]

theorem alGet_alErase_ne {α : Type} (l : List (String × α)) (k q : String)
    (h : ¬ q = k) : alGet (alErase l k) q = alGet l q := by
  have h' : ¬ k = q := fun hh => h hh.symm
  induction l with
  | nil => simp [alErase]
  | cons head tail ih =>
      obtain ⟨k2, v2⟩ := head
      by_cases h2 : k2 = k
      · subst h2
        simp [alGet, alErase, h']
      · simp [alGet, alErase, h2, ih]

theorem alGet_eq_none_of_not_mem {α : Type} (l : List (String × α)) (k : String)
    (h : k ∉ l.map Prod.fst) : alGet l k = none := by
  induction l with
  | nil => rfl
  | cons head tail ih =>
      obtain ⟨k2, v2⟩ := head
      simp only [List.map_cons, List.mem_cons] at h
      push_neg at h
      have h2 : ¬ k2 = k := fun hh => h.1 hh.symm
      simp [alGet, h2, ih h.2]

theorem mem_of_alGet_isSome {α : Type} (l : List (String × α)) (k : String)
    (h : (alGet l k).isSome = true) : k ∈ l.map Prod.fst := by
  by_contra hmem
  rw [alGet_eq_none_of_not_mem l k hmem] at h
  simp at h

theorem alGet_alErase_self {α : Type} (l : List (String × α)) (k : String)
    (h : (l.map Prod.fst).Nodup) : alGet (alErase l k) k = none := by
  induction l with
  | nil => rfl
  | cons head tail ih =>
      obtain ⟨k2, v2⟩ := head
      simp only [List.map_cons, List.nodup_cons] at h
      by_cases h2 : k2 = k
      · subst h2
        simpa [alErase] using alGet_eq_none_of_not_mem tail k2 h.1
      · simp [alGet, alErase, h2, ih h.2]

theorem keys_alErase_sublist {α : Type} (l : List (String × α)) (k : String) :
    ((alErase l k).map Prod.fst).Sublist (l.map Prod.fst) := by
  induction l with
  | nil => simp [alErase]
  | cons head tail ih =>
      obtain ⟨k2, v2⟩ := head
      by_cases h2 : k2 = k
      · simp only [alErase, h2, if_pos rfl, List.map_cons]
        exact (List.Sublist.refl _).cons _
      · simpa [alErase, h2] using ih.cons₂ k2

theorem mem_keys_alSet {α : Type} (l : List (String × α)) (k q : String) (v : α)
    (h : q ∈ (alSet l k v).map Prod.fst) : q ∈ l.map Prod.fst ∨ q = k := by
  induction l with
  | nil =>
      simp only [alSet, List.map_cons, List.map_nil, List.mem_singleton] at h
      exact Or.inr h
  | cons head tail ih =>
      obtain ⟨k2, v2⟩ := head
      by_cases h2 : k2 = k
      · subst h2
        simp only [alSet, eq_self_iff_true, ite_true, List.map_cons, List.mem_cons] at h
        rcases h with h | h
        · exact Or.inr h
        · exact Or.inl (List.mem_cons_of_mem _ h)
      · simp only [alSet, if_neg h2, List.map_cons, List.mem_cons] at h
        rcases h with h | h
        · exact Or.inl (by simp [h])
        · rcases ih h with h3 | h3
          · exact Or.inl (List.mem_cons_of_mem _ h3)
          · exact Or.inr h3

theorem keys_alSet_nodup {α : Type} (l : List (String × α)) (k : String) (v : α)
    (h : (l.map Prod.fst).Nodup) : ((alSet l k v).map Prod.fst).Nodup := by
  induction l with
  | nil => simp [alSet]
  | cons head tail ih =>
      obtain ⟨k2, v2⟩ := head
      simp only [List.map_cons, List.nodup_cons] at h
      by_cases h2 : k2 = k
      · subst h2
        simpa [alSet, List.nodup_cons] using h
      · simp only [alSet, if_neg h2, List.map_cons, List.nodup_cons]
        refine ⟨fun hmem => ?_, ih h.2⟩
        rcases mem_keys_alSet tail k k2 v hmem with h3 | h3
        · exact h.1 h3
        · exact h2 h3

theorem alSet_alSet {α : Type} (l : List (String × α)) (k : String) (v w : α) :
    alSet (alSet l k v) k w = alSet l k w := by
  induction l with
  | nil => simp [alSet]
  | cons head tail ih =>
      obtain ⟨k2, v2⟩ := head
      by_cases h2 : k2 = k <;> simp [alSet, h2, ih]

theorem alSet_of_not_mem {α : Type} (l : List (String × α)) (k : String) (v : α)
    (h : k ∉ l.map Prod.fst) : alSet l k v = l ++ [(k, v)] := by
  induction l with
  | nil => rfl
  | cons head tail ih =>
      obtain ⟨k2, v2⟩ := head
      simp only [List.map_cons, List.mem_cons] at h
      push_neg at h
      have h2 : ¬ k2 = k := fun hh => h.1 hh.symm
      simp [alSet, h2, ih h.2]

theorem alErase_append_singleton {α : Type} (l : List (String × α)) (k : String) (v : α)
    (h : k ∉ l.map Prod.fst) : alErase (l ++ [(k, v)]) k = l := by
  induction l with
  | nil => simp [alErase]
  | cons head tail ih =>
      obtain ⟨k2, v2⟩ := head
      simp only [List.map_cons, List.mem_cons] at h
      push_neg at h
      have h2 : ¬ k2 = k := fun hh => h.1 hh.symm
      simp [alErase, h2, ih h.2]

/-! Projection lemmas for the state-changing helpers. -/

@[simp] theorem saveManifest_manifest (env : Env) (s : CacheState) :
    (saveManifest env s).manifest = s.manifest := by
  unfold saveManifest
  split <;> rfl

@[simp] theorem saveManifest_fs (env : Env) (s : CacheState) :
    (saveManifest env s).fs = s.fs := by
  unfold saveManifest
  split <;> rfl

@[simp] theorem saveManifest_maxSizeMB (env : Env) (s : CacheState) :
    (saveManifest env s).maxSizeMB = s.maxSizeMB := by
  unfold saveManifest
  split <;> rfl

theorem saveManifest_saved_of_false (env : Env) (s : CacheState) (h : env.saveOk = false) :
    (saveManifest env s).savedManifest = s.savedManifest := by
  simp [saveManifest, h]

theorem saveManifest_saved_of_true (env : Env) (s : CacheState) (h : env.saveOk = true) :
    (saveManifest env s).savedManifest = some s.manifest := by
  simp [saveManifest, h]

theorem removeSample_of_none (env : Env) (s : CacheState) (p : String)
    (h : alGet s.fs p = none) : removeSample env s p = s := by
  simp [removeSample, h]

theorem removeSample_manifest_of_file (env : Env) (s : CacheState) (p : String)
    (hf : (alGet s.fs p).isSome = true) :
    (removeSample env s p).manifest =
      { samples := alErase s.manifest.samples p,
        urls := s.manifest.urls.filter (fun e => decide (¬ e.2 = p)),
        packs := s.manifest.packs } := by
  simp [removeSample, hf]

theorem removeSample_fs_of_file (env : Env) (s : CacheState) (p : String)
    (hf : (alGet s.fs p).isSome = true) :
    (removeSample env s p).fs = alErase s.fs p := by
  simp [removeSample, hf]

theorem removeSample_fs_get_ne (env : Env) (s : CacheState) (p q : String)
    (h : ¬ q = p) : alGet (removeSample env s p).fs q = alGet s.fs q := by
  unfold removeSample
  split
  · simp [alGet_alErase_ne _ _ _ h]
  · rfl

theorem removeSample_samples_get (env : Env) (s : CacheState) (p : String)
    (hnd : (s.manifest.samples.map Prod.fst).Nodup)
    (hf : (alGet s.fs p).isSome = true) (q : String) :
    alGet (removeSample env s p).manifest.samples q
      = if q = p then none else alGet s.manifest.samples q := by
  rw [removeSample_manifest_of_file env s p hf]
  by_cases h : q = p
  · subst h
    simp [alGet_alErase_self _ _ hnd]
  · simp [h, alGet_alErase_ne _ _ _ h]

theorem removeSample_samples_nodup (env : Env) (s : CacheState) (p : String)
    (hnd : (s.manifest.samples.map Prod.fst).Nodup) :
    ((removeSample env s p).manifest.samples.map Prod.fst).Nodup := by
  unfold removeSample
  split
  · simp only [saveManifest_manifest]
    exact hnd.sublist (keys_alErase_sublist _ _)
  · exact hnd

theorem removeSample_maxSizeMB (env : Env) (s : CacheState) (p : String) :
    (removeSample env s p).maxSizeMB = s.maxSizeMB := by
  unfold removeSample
  split <;> simp

theorem removeSample_saved_of_false (env : Env) (s : CacheState) (p : String)
    (h : env.saveOk = false) :
    (removeSample env s p).savedManifest = s.savedManifest := by
  unfold removeSample
  split
  · rw [saveManifest_saved_of_false _ _ h]
  · rfl

/-! The eviction walk: its removals are exactly an oldest-first segment. -/

theorem sufSum_cons (e : EvEntry) (l : List EvEntry) :
    sufSum (e :: l) = e.size + sufSum l := by
  simp [sufSum]

theorem insEntry_perm (x : EvEntry) (l : List EvEntry) :
    (insEntry x l).Perm (x :: l) := by
  induction l with
  | nil => exact List.Perm.refl _
  | cons y ys ih =>
      unfold insEntry
      split
      · exact (ih.cons y).trans (List.Perm.swap x y ys)
      · exact List.Perm.refl _

theorem foldl_insEntry_perm (l acc : List EvEntry) :
    (l.foldl (fun a x => insEntry x a) acc).Perm (acc ++ l) := by
  induction l generalizing acc with
  | nil => simp
  | cons x xs ih =>
      have h1 := ih (insEntry x acc)
      have h2 : (insEntry x acc ++ xs).Perm (acc ++ x :: xs) :=
        ((insEntry_perm x acc).append_right xs).trans List.perm_middle.symm
      exact (List.foldl_cons _ _ ▸ h1).trans h2

theorem sortEntries_perm (l : List EvEntry) : (sortEntries l).Perm l := by
  simpa [sortEntries] using foldl_insEntry_perm l []

theorem evictLoop_eq_fold (env : Env) (maxBytes : Nat) :
    ∀ (es : List EvEntry) (cur : Nat) (s : CacheState),
      evictLoop env maxBytes es cur s
        = ((es.take (evictCount maxBytes es cur)).map EvEntry.path).foldl
            (fun st p => removeSample env st p) s := by
  intro es
  induction es with
  | nil => intro cur s; simp [evictLoop, evictCount]
  | cons e rest ih =>
      intro cur s
      unfold evictLoop evictCount
      split
      · simp
      · simp only [List.take_succ_cons, List.map_cons, List.foldl_cons]
        exact ih (cur - e.size) (removeSample env s e.path)

theorem evictCount_min (maxBytes : Nat) :
    ∀ es : List EvEntry,
      5 * sufSum (es.drop (evictCount maxBytes es (sufSum es))) ≤ 4 * maxBytes
      ∧ ∀ j, j < evictCount maxBytes es (sufSum es) →
          4 * maxBytes < 5 * sufSum (es.drop j) := by
  intro es
  induction es with
  | nil =>
      constructor
      · simp [evictCount, sufSum]
      · intro j hj
        simp [evictCount] at hj
  | cons e rest ih =>
      unfold evictCount
      split
      · constructor
        · simpa using (by assumption : 5 * sufSum (e :: rest) ≤ 4 * maxBytes)
        · intro j hj
          omega
      · have hsub : sufSum (e :: rest) - e.size = sufSum rest := by
          rw [sufSum_cons]
          omega
        rw [hsub]
        constructor
        · simpa [List.drop_succ_cons] using ih.1
        · intro j hj
          match j with
          | 0 =>
              have hgt : ¬ 5 * sufSum (e :: rest) ≤ 4 * maxBytes := by assumption
              simpa using Nat.lt_of_not_le hgt
          | j2 + 1 =>
              have hj2 : j2 < evictCount maxBytes rest (sufSum rest) := by omega
              simpa [List.drop_succ_cons] using ih.2 j2 hj2

/-! Folding `removeSample` over a list of present, distinct paths. -/

theorem foldRemove_samples_get (env : Env) :
    ∀ (ps : List String) (s : CacheState),
      ps.Nodup →
      (s.manifest.samples.map Prod.fst).Nodup →
      (∀ p ∈ ps, (alGet s.fs p).isSome = true) →
      ∀ q, alGet ((ps.foldl (fun st p => removeSample env st p) s)).manifest.samples q
          = if q ∈ ps then none else alGet s.manifest.samples q := by
  intro ps
  induction ps with
  | nil => intro s _ _ _ q; simp
  | cons p ps ih =>
      intro s hnd hmnd hfiles q
      have hps : ps.Nodup := hnd.of_cons
      have hpnot : p ∉ ps := (List.nodup_cons.mp hnd).1
      have hfp : (alGet s.fs p).isSome = true := hfiles p (List.mem_cons_self p ps)
      have hmnd2 := removeSample_samples_nodup env s p hmnd
      have hfiles2 : ∀ p2 ∈ ps, (alGet (removeSample env s p).fs p2).isSome = true := by
        intro p2 hp2
        have hne : ¬ p2 = p := fun hh => hpnot (hh ▸ hp2)
        rw [removeSample_fs_get_ne env s p p2 hne]
        exact hfiles p2 (List.mem_cons_of_mem p hp2)
      have hstep := removeSample_samples_get env s p hmnd hfp q
      simp only [List.foldl_cons]
      rw [ih (removeSample env s p) hps hmnd2 hfiles2 q, hstep]
      by_cases hq1 : q ∈ ps
      · simp [hq1, List.mem_cons_of_mem p hq1]
      · by_cases hq2 : q = p
        · simp [hq1, hq2]
        · simp [hq1, hq2]

/-! Preservation of the urls-index invariant by the cache mutations. -/

theorem urlInv_removeSample (env : Env) (s : CacheState) (p : String)
    (h : urlInv s.manifest) : urlInv (removeSample env s p).manifest := by
  unfold removeSample
  split
  · simp only [saveManifest_manifest]
    intro e he
    rw [List.mem_filter] at he
    have hne : ¬ e.2 = p := by simpa using he.2
    have he1 := h e he.1
    simpa [alGet_alErase_ne _ _ _ hne] using he1
  · exact h

theorem urlInv_alSet_samples (m : Manifest) (p : String) (meta : SampleMeta)
    (h : urlInv m) : urlInv { m with samples := alSet m.samples p meta } := by
  intro e he
  have h1 := h e he
  by_cases hq : e.2 = p
  · simp [hq, alGet_alSet_self]
  · simpa [alGet_alSet_ne _ _ _ _ hq] using h1

theorem urlInv_evictLoop (env : Env) (maxBytes : Nat) :
    ∀ (es : List EvEntry) (cur : Nat) (s : CacheState),
      urlInv s.manifest → urlInv (evictLoop env maxBytes es cur s).manifest := by
  intro es
  induction es with
  | nil => intro cur s h; exact h
  | cons e rest ih =>
      intro cur s h
      unfold evictLoop
      split
      · exact h
      · exact ih _ _ (urlInv_removeSample env s e.path h)

theorem urlInv_checkCacheSize (env : Env) (s : CacheState)
    (h : urlInv s.manifest) : urlInv (checkCacheSize env s).manifest := by
  unfold checkCacheSize cleanupCache
  split
  · exact urlInv_evictLoop env _ _ _ s h
  · exact h

theorem urlInv_addSample (env : Env) (s : CacheState) (p : String) (data : List Nat)
    (h : urlInv s.manifest) : urlInv ((addSample env s p data).1).manifest := by
  unfold addSample
  apply urlInv_checkCacheSize
  simp only [saveManifest_manifest]
  unfold manifestAfterAdd
  exact urlInv_alSet_samples _ _ _ h

theorem urlInv_updateAccessTime (env : Env) (s : CacheState) (p : String)
    (h : urlInv s.manifest) : urlInv (updateAccessTime env s p).manifest := by
  unfold updateAccessTime
  cases hm : alGet s.manifest.samples p with
  | none => simpa [hm] using h
  | some meta =>
      simp only [hm, saveManifest_manifest]
      exact urlInv_alSet_samples _ _ _ h

theorem urlInv_foldRemove (env : Env) :
    ∀ (ps : List String) (s : CacheState),
      urlInv s.manifest →
      urlInv ((ps.foldl (fun st p => removeSample env st p) s)).manifest := by
  intro ps
  induction ps with
  | nil => intro s h; exact h
  | cons p ps ih =>
      intro s h
      simp only [List.foldl_cons]
      exact ih _ (urlInv_removeSample env s p h)

theorem urlInv_clearCache (env : Env) (s : CacheState)
    (h : urlInv s.manifest) : urlInv (clearCache env s).manifest := by
  unfold clearCache
  exact urlInv_foldRemove env _ s h

/-! `savedManifest` is only written through `_saveManifest`. -/

theorem evictLoop_saved_of_false (env : Env) (maxBytes : Nat) (h : env.saveOk = false) :
    ∀ (es : List EvEntry) (cur : Nat) (s : CacheState),
      (evictLoop env maxBytes es cur s).savedManifest = s.savedManifest := by
  intro es
  induction es with
  | nil => intro cur s; rfl
  | cons e rest ih =>
      intro cur s
      unfold evictLoop
      split
      · rfl
      · rw [ih, removeSample_saved_of_false env s e.path h]

theorem checkCacheSize_saved_of_false (env : Env) (s : CacheState) (h : env.saveOk = false) :
    (checkCacheSize env s).savedManifest = s.savedManifest := by
  unfold checkCacheSize cleanupCache
  split
  · exact evictLoop_saved_of_false env _ h _ _ s
  · rfl

theorem foldRemove_saved_of_false (env : Env) (h : env.saveOk = false) :
    ∀ (ps : List String) (s : CacheState),
      ((ps.foldl (fun st p => removeSample env st p) s)).savedManifest = s.savedManifest := by
  intro ps
  induction ps with
  | nil => intro s; rfl
  | cons p ps ih =>
      intro s
      simp only [List.foldl_cons]
      rw [ih, removeSample_saved_of_false env s p h]

/-! Size bookkeeping across the snapshot and the sort. -/

theorem snapshot_keys (m : Manifest) :
    (snapshotEntries m).map EvEntry.path = m.samples.map Prod.fst := by
  simp [snapshotEntries, List.map_map, Function.comp]

theorem sufSum_sorted (m : Manifest) :
    sufSum (sortEntries (snapshotEntries m)) = totalSize m := by
  have hperm := (sortEntries_perm (snapshotEntries m)).map EvEntry.size
  unfold sufSum totalSize
  rw [hperm.sum_eq]
  simp only [snapshotEntries, List.map_map]
  rfl

/-- C3: LRU eviction.  Starting from a manifest whose keys are unique and
whose entries all have their files on disk (so the `removeSample` walk can
delete them), the size check after an add is a no-op when the recorded total
is at most `maxSizeMB * 2^20`; when the total exceeds the cap, the cleanup
removes exactly the minimal prefix of the entries sorted ascending by
`lastAccessed` (stable, oldest first) needed to bring the remaining recorded
total to at most 80% of the cap — ties kept in manifest order, sizes taken
from the manifest in one pass, all entries removed if the walk exhausts the
list — leaving every other entry untouched. -/
theorem c3_lru_eviction (env : Env) (s : CacheState)
    (hnd : (s.manifest.samples.map Prod.fst).Nodup)
    (hfiles : ∀ e ∈ s.manifest.samples, (alGet s.fs e.1).isSome = true) :
    (totalSize s.manifest ≤ s.maxSizeMB * 1048576 → checkCacheSize env s = s)
    ∧ (s.maxSizeMB * 1048576 < totalSize s.manifest →
        5 * sufSum ((sortEntries (snapshotEntries s.manifest)).drop (evictCountOf s))
            ≤ 4 * (s.maxSizeMB * 1048576)
        ∧ (∀ j, j < evictCountOf s →
            4 * (s.maxSizeMB * 1048576)
              < 5 * sufSum ((sortEntries (snapshotEntries s.manifest)).drop j))
        ∧ (∀ q, alGet (checkCacheSize env s).manifest.samples q
            = if q ∈ evictedPathsOf s then none else alGet s.manifest.samples q)) := by
  have hsortedkeys : ((sortEntries (snapshotEntries s.manifest)).map EvEntry.path).Nodup := by
    have hperm := (sortEntries_perm (snapshotEntries s.manifest)).map EvEntry.path
    rw [hperm.nodup_iff, snapshot_keys]
    exact hnd
  have hpathsnd : (evictedPathsOf s).Nodup := by
    unfold evictedPathsOf
    exact hsortedkeys.sublist ((List.take_sublist _ _).map EvEntry.path)
  have hpfiles : ∀ p ∈ evictedPathsOf s, (alGet s.fs p).isSome = true := by
    intro p hp
    unfold evictedPathsOf at hp
    obtain ⟨e, he, hep⟩ := List.mem_map.mp hp
    have he2 : e ∈ sortEntries (snapshotEntries s.manifest) := (List.take_sublist _ _).subset he
    have he3 : e ∈ snapshotEntries s.manifest := (sortEntries_perm _).subset he2
    obtain ⟨a, ha, hae⟩ := List.mem_map.mp he3
    have hpa : e.path = a.1 := by rw [← hae]
    rw [← hep, hpa]
    exact hfiles a ha
  constructor
  · intro hle
    unfold checkCacheSize
    rw [if_neg (Nat.not_lt.mpr hle)]
  · intro hgt
    refine ⟨?_, ?_, ?_⟩
    · have h1 := (evictCount_min (s.maxSizeMB * 1048576)
        (sortEntries (snapshotEntries s.manifest))).1
      simpa [evictCountOf] using h1
    · intro j hj
      exact (evictCount_min (s.maxSizeMB * 1048576)
        (sortEntries (snapshotEntries s.manifest))).2 j (by simpa [evictCountOf] using hj)
    · intro q
      unfold checkCacheSize
      rw [if_pos hgt]
      simp only [cleanupCache]
      rw [evictLoop_eq_fold]
      have heq : ((sortEntries (snapshotEntries s.manifest)).take
          (evictCount (s.maxSizeMB * 1048576) (sortEntries (snapshotEntries s.manifest))
            (sufSum (sortEntries (snapshotEntries s.manifest))))).map EvEntry.path
          = evictedPathsOf s := rfl
      rw [heq]
      exact foldRemove_samples_get env (evictedPathsOf s) s hpathsnd hnd hpfiles q

/-- Witness for C3: a concrete 1 MB-cap cache holding 1,200,000 recorded
bytes; the hypotheses hold and the pointwise eviction description follows by
applying the theorem. -/
theorem c3_lru_eviction_witness :
    (c3state.manifest.samples.map Prod.fst).Nodup
    ∧ (∀ e ∈ c3state.manifest.samples, (alGet c3state.fs e.1).isSome = true)
    ∧ (c3state.maxSizeMB * 1048576 < totalSize c3state.manifest)
    ∧ (∀ q, alGet (checkCacheSize env0 c3state).manifest.samples q
        = if q ∈ evictedPathsOf c3state then none else alGet c3state.manifest.samples q) :=
  ⟨by decide, by decide, by decide,
   ((c3_lru_eviction env0 c3state (by decide) (by decide)).2 (by decide)).2.2⟩

theorem mem_alSet {α : Type} (l : List (String × α)) (k : String) (v : α) (e : String × α)
    (h : e ∈ alSet l k v) : e ∈ l ∨ e = (k, v) := by
  induction l with
  | nil =>
      simp only [alSet, List.mem_singleton] at h
      exact Or.inr h
  | cons head tail ih =>
      obtain ⟨k2, v2⟩ := head
      by_cases h2 : k2 = k
      · subst h2
        simp only [alSet, eq_self_iff_true, ite_true, List.mem_cons] at h
        rcases h with h | h
        · exact Or.inr h
        · exact Or.inl (List.mem_cons_of_mem _ h)
      · simp only [alSet, if_neg h2, List.mem_cons] at h
        rcases h with h | h
        · exact Or.inl (by simp [h])
        · rcases ih h with h3 | h3
          · exact Or.inl (List.mem_cons_of_mem _ h3)
          · exact Or.inr h3

/-- C5 counterexample: `downloadPack` is among the listed mutations, yet
from the empty (invariant-satisfying) state a successful pack download
installs `urls[url] = packs/p.bin/p.bin` with no corresponding `samples`
entry, breaking the URL-index invariant: the claim as stated is false. -/
theorem c5_url_index_counterexample :
    urlInv st0.manifest
    ∧ ¬ urlInv ((downloadPack env0 (always200 [1]) st0 "http://h/p.bin" none).1).manifest := by
  constructor
  · intro e he
    simp [st0, mEmpty] at he
  · intro hcl
    have hurls : ((downloadPack env0 (always200 [1]) st0 "http://h/p.bin" none).1).manifest.urls
        = [("http://h/p.bin", "packs/p.bin/p.bin")] := rfl
    have hsamp : ((downloadPack env0 (always200 [1]) st0 "http://h/p.bin" none).1).manifest.samples
        = [] := rfl
    have h2 := hcl ("http://h/p.bin", "packs/p.bin/p.bin")
      (by rw [hurls]; exact List.mem_cons_self _ _)
    rw [hsamp] at h2
    simp [alGet] at h2

/-- C5 (amended): the cache's own mutations — `addSample`, `removeSample`,
`updateAccessTime`, `clear` — unconditionally preserve the invariant that
every `urls` key maps to an existing `samples` key; `setByUrl` and a
successful `downloadSample` preserve it provided the just-added sample still
has a manifest entry afterwards (the post-add eviction check can evict it
when the new entry alone exceeds 80% of the cap); an erroring
`downloadSample` or `downloadPack` leaves the manifest unchanged.  A
successful `downloadPack` maps the URL to a pack path never added to
`samples` and does not preserve the invariant (see the counterexample). -/
theorem c5_url_index_amended (env : Env) (s : CacheState) (p url dest tempName : String)
    (data : List Nat) (server : Server) (eh : Option String)
    (hinv : urlInv s.manifest) :
    urlInv ((addSample env s p data).1).manifest
    ∧ urlInv (removeSample env s p).manifest
    ∧ urlInv (updateAccessTime env s p).manifest
    ∧ urlInv (clearCache env s).manifest
    ∧ ((alGet ((setByUrl env s url data).1).manifest.samples
          ("remote/" ++ urlFileName env url)).isSome = true →
        urlInv ((setByUrl env s url data).1).manifest)
    ∧ (∀ c, (downloadSample env server s url dest tempName eh).2 = Except.ok c →
        (alGet ((downloadSample env server s url dest tempName eh).1).manifest.samples
            dest).isSome = true →
        urlInv ((downloadSample env server s url dest tempName eh).1).manifest)
    ∧ (∀ e2, (downloadSample env server s url dest tempName eh).2 = Except.error e2 →
        urlInv ((downloadSample env server s url dest tempName eh).1).manifest)
    ∧ (∀ e2, (downloadPack env server s url eh).2 = Except.error e2 →
        urlInv ((downloadPack env server s url eh).1).manifest) := by
  refine ⟨urlInv_addSample env s p data hinv, urlInv_removeSample env s p hinv,
    urlInv_updateAccessTime env s p hinv, urlInv_clearCache env s hinv, ?_, ?_, ?_, ?_⟩
  · intro hmem
    have hadd := urlInv_addSample env s ("remote/" ++ urlFileName env url) data hinv
    simp only [setByUrl, saveManifest_manifest] at hmem ⊢
    intro e he
    have he' : e ∈ alSet ((addSample env s ("remote/" ++ urlFileName env url) data).1).manifest.urls
        url ("remote/" ++ urlFileName env url) := he
    rcases mem_alSet _ _ _ _ he' with he2 | he2
    · exact hadd e he2
    · rw [he2]
      exact hmem
  · intro c hok hdest
    by_cases h200 : (server none).1 = 200
    · cases hb : hashMismatch eh (sha256hex (server none).2) with
      | true =>
          exfalso
          simp only [downloadSample, h200, if_true, hb, ite_true] at hok
          exact Except.noConfusion hok
      | false =>
          have hadd := urlInv_addSample env
            { s with fs := alSet (alSet s.fs tempName []) tempName (server none).2 }
            dest (server none).2 hinv
          simp only [downloadSample, h200, if_true, hb, Bool.false_eq_true, ite_false,
            saveManifest_manifest] at hdest ⊢
          intro e he
          have he' : e ∈ alSet ((addSample env
              { s with fs := alSet (alSet s.fs tempName []) tempName (server none).2 }
              dest (server none).2).1).manifest.urls url dest := he
          rcases mem_alSet _ _ _ _ he' with he2 | he2
          · exact hadd e he2
          · rw [he2]
            exact hdest
    · simp only [downloadSample, h200, ite_false]
      exact hinv
  · intro e2 herr
    by_cases h200 : (server none).1 = 200
    · cases hb : hashMismatch eh (sha256hex (server none).2) with
      | true =>
          simp only [downloadSample, h200, if_true, hb, ite_true]
          exact hinv
      | false =>
          exfalso
          simp only [downloadSample, h200, if_true, hb, Bool.false_eq_true, ite_false] at herr
          exact Except.noConfusion herr
    · simp only [downloadSample, h200, ite_false]
      exact hinv
  · intro e2 herr
    simp only [downloadPack] at herr ⊢
    cases hst : streamToFile server s.fs (packTarget url) eh true with
    | mk fs1 r =>
        rw [hst] at herr
        cases r with
        | error e3 => exact hinv
        | ok d => exact Except.noConfusion herr

/-- Witness for C5: from the empty state, `setByUrl` stores
`remote/a.wav`, the entry survives (nothing to evict), and the invariant is
preserved, by the amended theorem. -/
theorem c5_url_index_witness :
    urlInv st0.manifest
    ∧ (alGet ((setByUrl env0 st0 "http://h/a.wav" [1]).1).manifest.samples
        ("remote/" ++ urlFileName env0 "http://h/a.wav")).isSome = true
    ∧ urlInv ((setByUrl env0 st0 "http://h/a.wav" [1]).1).manifest :=
  ⟨fun e he => absurd he (List.not_mem_nil e), by decide,
   (c5_url_index_amended env0 st0 "q" "http://h/a.wav" "d" "t" [1] (always200 [1]) none
      (fun e he => absurd he (List.not_mem_nil e))).2.2.2.2.1 (by decide)⟩

/-- Shared fact: when the recorded total after the entry upsert stays within
the cap, `_checkCacheSize` does nothing, so `addSample` leaves exactly the
upserted manifest. -/
theorem addSample_manifest_of_under_cap (env : Env) (s : CacheState) (p : String)
    (data : List Nat)
    (hcap : totalSize (manifestAfterAdd env s p data) ≤ s.maxSizeMB * 1048576) :
    ((addSample env s p data).1).manifest = manifestAfterAdd env s p data := by
  simp only [addSample, checkCacheSize, saveManifest_manifest, saveManifest_maxSizeMB]
  rw [if_neg (Nat.not_lt.mpr hcap)]
  simp

/-- Shared fact: under the cap, `addSample` leaves exactly the written file. -/
theorem addSample_fs_of_under_cap (env : Env) (s : CacheState) (p : String)
    (data : List Nat)
    (hcap : totalSize (manifestAfterAdd env s p data) ≤ s.maxSizeMB * 1048576) :
    ((addSample env s p data).1).fs = alSet s.fs p data := by
  simp only [addSample, checkCacheSize, saveManifest_manifest, saveManifest_maxSizeMB]
  rw [if_neg (Nat.not_lt.mpr hcap)]
  simp [saveManifest]
  split <;> rfl

/-- C6 counterexample: the claim promises that a manifest entry for `p` is
removed whether or not the file still exists on disk; in `c6state` the
entry exists but the file is gone, and `removeSample` (guarded by
`existsSync`) leaves the manifest entry in place. -/
theorem c6_remove_sample_counterexample :
    ¬ (alGet (removeSample env0 c6state "p").manifest.samples "p" = none) := by
  decide

/-- C6 (amended): `removeSample(p)` deletes the file, the manifest entry,
and every `urls` mapping to `p`, and persists — but only when the cached
file exists on disk; when the file is absent the call is a silent no-op
even if a manifest entry exists (the entry is left in place).  In
particular it never raises. -/
theorem c6_remove_sample_amended (env : Env) (s : CacheState) (p : String)
    (hnd : (s.manifest.samples.map Prod.fst).Nodup)
    (hfsnd : (s.fs.map Prod.fst).Nodup) :
    ((alGet s.fs p).isSome = true →
        alGet (removeSample env s p).fs p = none
        ∧ alGet (removeSample env s p).manifest.samples p = none
        ∧ (removeSample env s p).manifest.urls
            = s.manifest.urls.filter (fun e => decide (¬ e.2 = p))
        ∧ (env.saveOk = true →
            (removeSample env s p).savedManifest = some (removeSample env s p).manifest))
    ∧ (alGet s.fs p = none → removeSample env s p = s) := by
  constructor
  · intro hf
    refine ⟨?_, ?_, ?_, ?_⟩
    · rw [removeSample_fs_of_file env s p hf]
      exact alGet_alErase_self _ _ hfsnd
    · rw [removeSample_manifest_of_file env s p hf]
      exact alGet_alErase_self _ _ hnd
    · rw [removeSample_manifest_of_file env s p hf]
    · intro hsv
      unfold removeSample
      rw [if_pos hf, saveManifest_saved_of_true _ _ hsv, saveManifest_manifest]
  · exact removeSample_of_none env s p

/-- Witness for C6 on a state whose file is present: the entry is gone
afterwards, by the amended theorem. -/
theorem c6_remove_sample_witness :
    (c7state.manifest.samples.map Prod.fst).Nodup
    ∧ (c7state.fs.map Prod.fst).Nodup
    ∧ (alGet c7state.fs "p").isSome = true
    ∧ alGet (removeSample env0 c7state "p").manifest.samples "p" = none :=
  ⟨by decide, by decide, by decide,
   ((c6_remove_sample_amended env0 c7state "p" (by decide) (by decide)).1 (by decide)).2.1⟩

/-- C7 counterexample: re-adding `p` (cached at time 1) at time 2 resets
`cachedAt` to 2 — the source overwrites the whole entry — contradicting the
claim that `cachedAt` stays unchanged on re-add. -/
theorem c7_cached_at_counterexample :
    (alGet ((addSample { now := 2, saveOk := true } c7state "p" [0]).1).manifest.samples
        "p").map SampleMeta.cachedAt = some 2
    ∧ (alGet c7state.manifest.samples "p").map SampleMeta.cachedAt = some 1
    ∧ ¬ ((2 : Nat) = 1) := by
  refine ⟨by decide, by decide, by decide⟩

/-- C7 (amended): on a re-add that stays within the cap, `addSample`
replaces the whole entry: `size`, `hash`, `lastAccessed` are updated and
`cachedAt` is also reset to now (not kept); entries under other paths are
untouched. -/
theorem c7_add_sample_readd_amended (env : Env) (s : CacheState) (p : String)
    (data : List Nat) (meta : SampleMeta)
    (_hmem : alGet s.manifest.samples p = some meta)
    (hcap : totalSize (manifestAfterAdd env s p data) ≤ s.maxSizeMB * 1048576) :
    alGet ((addSample env s p data).1).manifest.samples p = some (newSampleMeta env data)
    ∧ (∀ q, ¬ q = p →
        alGet ((addSample env s p data).1).manifest.samples q
          = alGet s.manifest.samples q) := by
  have hm := addSample_manifest_of_under_cap env s p data hcap
  constructor
  · rw [hm]
    exact alGet_alSet_self _ _ _
  · intro q hq
    rw [hm]
    exact alGet_alSet_ne _ _ _ _ hq

/-- Witness for C7: the concrete re-add of the counterexample state, with
the entry fully replaced. -/
theorem c7_add_sample_readd_witness :
    alGet c7state.manifest.samples "p"
        = some { size := 1, hash := "x", cachedAt := 1, lastAccessed := 1 }
    ∧ totalSize (manifestAfterAdd env0 c7state "p" [0]) ≤ c7state.maxSizeMB * 1048576
    ∧ alGet ((addSample env0 c7state "p" [0]).1).manifest.samples "p"
        = some (newSampleMeta env0 [0]) :=
  ⟨by decide, by decide,
   (c7_add_sample_readd_amended env0 c7state "p" [0]
      { size := 1, hash := "x", cachedAt := 1, lastAccessed := 1 }
      (by decide) (by decide)).1⟩

/-- Shared fact: adding, to an empty cache, a payload whose recorded size
both exceeds the cap and exceeds 80% of the cap makes the eviction walk
remove the just-added entry itself: the file is gone again when `addSample`
returns. -/
theorem addSample_self_evict (env : Env) (maxMB : Nat) (data : List Nat) (p : String)
    (hover : maxMB * 1048576 < data.length)
    (hbig : ¬ 5 * data.length ≤ 4 * (maxMB * 1048576)) :
    alGet ((addSample env
      { fs := [], manifest := mEmpty, savedManifest := none, maxSizeMB := maxMB }
      p data).1).fs p = none := by
  simp only [addSample, manifestAfterAdd, newSampleMeta, mEmpty, alSet, checkCacheSize,
    saveManifest_manifest, saveManifest_fs, saveManifest_maxSizeMB, totalSize, cleanupCache,
    snapshotEntries, sortEntries, insEntry, sufSum, evictLoop, List.map_cons, List.map_nil,
    List.sum_cons, List.sum_nil, List.foldl_cons, List.foldl_nil, Nat.add_zero]
  rw [if_pos hover, if_neg hbig]
  rw [removeSample_fs_of_file _ _ _ (by simp [alGet])]
  simp [alGet, alErase]

/-- C8 counterexample: with a 1 MB cap, adding a payload one byte over the
cap makes the freshly added entry itself the last resort of the eviction
walk (its size exceeds 80% of the cap), so the file is deleted again within
`addSample` and the claimed postcondition fails. -/
theorem c8_add_verify_counterexample :
    alGet ((addSample env0 cacheOneMB "p" bigPayload).1).fs "p" = none :=
  addSample_self_evict env0 1 bigPayload "p" (by norm_num [bigPayload])
    (by norm_num [bigPayload])

/-- C8 (amended): whenever the recorded total after the add stays within
the cap (so the immediate eviction cannot touch the new entry), the cached
file's bytes equal the payload, the recorded hash is the lowercase-hex
SHA-256 of the payload, and `verifySample` returns true. -/
theorem c8_add_verify_amended (env : Env) (s : CacheState) (p : String) (data : List Nat)
    (hcap : totalSize (manifestAfterAdd env s p data) ≤ s.maxSizeMB * 1048576) :
    alGet ((addSample env s p data).1).fs p = some data
    ∧ (alGet ((addSample env s p data).1).manifest.samples p).map SampleMeta.hash
        = some (sha256hex data)
    ∧ verifySample (addSample env s p data).1 p = true := by
  have hm := addSample_manifest_of_under_cap env s p data hcap
  have hf := addSample_fs_of_under_cap env s p data hcap
  refine ⟨?_, ?_, ?_⟩
  · rw [hf]
    exact alGet_alSet_self _ _ _
  · rw [hm]
    simp [manifestAfterAdd, alGet_alSet_self, newSampleMeta]
  · unfold verifySample
    rw [hm, hf]
    simp only [manifestAfterAdd]
    rw [alGet_alSet_self, alGet_alSet_self]
    simp [newSampleMeta]

/-- Witness for C8: a small concrete add on the default-cap empty cache. -/
theorem c8_add_verify_witness :
    totalSize (manifestAfterAdd env0 st0 "p" [1, 2]) ≤ st0.maxSizeMB * 1048576
    ∧ alGet ((addSample env0 st0 "p" [1, 2]).1).fs "p" = some [1, 2]
    ∧ verifySample (addSample env0 st0 "p" [1, 2]).1 "p" = true :=
  ⟨by decide, (c8_add_verify_amended env0 st0 "p" [1, 2] (by decide)).1,
   (c8_add_verify_amended env0 st0 "p" [1, 2] (by decide)).2.2⟩

/-- C9 counterexample: with the manifest write failing
(`envNoSave.saveOk = false`), `addSample` still completes normally — it
returns the cached path and updates the in-memory manifest — while the
on-disk manifest is left stale; no error is surfaced to the caller,
contradicting the claim. -/
theorem c9_save_error_counterexample :
    (addSample envNoSave st0 "p" [1]).2 = "p"
    ∧ ((addSample envNoSave st0 "p" [1]).1).savedManifest = some mEmpty
    ∧ ¬ (alGet ((addSample envNoSave st0 "p" [1]).1).manifest.samples "p" = none) := by
  refine ⟨by decide, by decide, by decide⟩

/-- C9 (amended): a failure to write `manifest.json` is caught inside
`_saveManifest` and only logged: `addSample`, `removeSample`,
`updateAccessTime`, `clear` and the pack recording of `downloadPack` all
complete as if the persist had succeeded (no retry, no error), leaving the
on-disk manifest untouched. -/
theorem c9_save_error_amended (env : Env) (s : CacheState) (p p2 url : String)
    (data : List Nat) (server : Server) (eh : Option String)
    (hsk : env.saveOk = false) :
    ((addSample env s p data).1).savedManifest = s.savedManifest
    ∧ (addSample env s p data).2 = p
    ∧ (removeSample env s p2).savedManifest = s.savedManifest
    ∧ (updateAccessTime env s p2).savedManifest = s.savedManifest
    ∧ (clearCache env s).savedManifest = s.savedManifest
    ∧ ((downloadPack env server s url eh).1).savedManifest = s.savedManifest := by
  refine ⟨?_, rfl, removeSample_saved_of_false env s p2 hsk, ?_, ?_, ?_⟩
  · unfold addSample
    rw [checkCacheSize_saved_of_false env _ hsk, saveManifest_saved_of_false _ _ hsk]
  · unfold updateAccessTime
    cases hm : alGet s.manifest.samples p2 with
    | none => rfl
    | some meta => rw [saveManifest_saved_of_false _ _ hsk]
  · unfold clearCache
    exact foldRemove_saved_of_false env hsk _ s
  · simp only [downloadPack]
    cases hst : streamToFile server s.fs (packTarget url) eh true with
    | mk fs1 r =>
        cases r with
        | error e3 => rfl
        | ok d => rw [saveManifest_saved_of_false _ _ hsk]

/-- C10: `getByUrl(url)` never raises on a miss: it returns null both when
the `urls` index lacks the URL and when the mapped path's file is gone from
disk, leaving the state untouched.  On a hit it returns exactly the on-disk
bytes of the mapped file and, as a side effect, sets that sample's
`lastAccessed` to now and persists the manifest (when the manifest write
succeeds; its failure is logged and swallowed, per `_saveManifest`). -/
theorem c10_get_by_url (env : Env) (s : CacheState) (url : String) :
    (alGet s.manifest.urls url = none → getByUrl env s url = (s, none))
    ∧ (∀ rel, alGet s.manifest.urls url = some rel → alGet s.fs rel = none →
        getByUrl env s url = (s, none))
    ∧ (∀ rel bytes meta, alGet s.manifest.urls url = some rel →
        alGet s.fs rel = some bytes →
        alGet s.manifest.samples rel = some meta →
        (getByUrl env s url).2 = some bytes
        ∧ (alGet ((getByUrl env s url).1).manifest.samples rel).map SampleMeta.lastAccessed
            = some env.now
        ∧ (env.saveOk = true →
            ((getByUrl env s url).1).savedManifest
              = some ((getByUrl env s url).1).manifest)) := by
  refine ⟨?_, ?_, ?_⟩
  · intro hu
    simp [getByUrl, hu]
  · intro rel hu hf
    simp [getByUrl, hu, hf]
  · intro rel bytes meta hu hf hs
    have hup : updateAccessTime env s rel
        = saveManifest env
          { s with manifest := { s.manifest with
              samples := alSet s.manifest.samples rel { meta with lastAccessed := env.now } } } := by
      simp [updateAccessTime, hs]
    refine ⟨?_, ?_, ?_⟩
    · simp only [getByUrl, hu, hf, Option.isSome_some, ite_true]
      rw [hup]
      simp [hf]
    · simp only [getByUrl, hu, hf, Option.isSome_some, ite_true]
      rw [hup]
      simp only [saveManifest_manifest]
      rw [alGet_alSet_self]
      rfl
    · intro hsv
      simp only [getByUrl, hu, hf, Option.isSome_some, ite_true]
      rw [hup, saveManifest_saved_of_true _ _ hsv, saveManifest_manifest]

/-- Witness for C10 on a concrete hit: the cached bytes come back and the
access time is touched. -/
theorem c10_get_by_url_witness :
    alGet c10state.manifest.urls "http://h/a.wav" = some "remote/a.wav"
    ∧ alGet c10state.fs "remote/a.wav" = some [9, 9]
    ∧ (getByUrl env0 c10state "http://h/a.wav").2 = some [9, 9]
    ∧ (alGet ((getByUrl env0 c10state "http://h/a.wav").1).manifest.samples
        "remote/a.wav").map SampleMeta.lastAccessed = some env0.now :=
  ⟨by decide, by decide,
   ((c10_get_by_url env0 c10state "http://h/a.wav").2.2 "remote/a.wav" [9, 9]
      { size := 2, hash := "h", cachedAt := 1, lastAccessed := 1 }
      (by decide) (by decide) (by decide)).1,
   ((c10_get_by_url env0 c10state "http://h/a.wav").2.2 "remote/a.wav" [9, 9]
      { size := 2, hash := "h", cachedAt := 1, lastAccessed := 1 }
      (by decide) (by decide) (by decide)).2.1⟩

/-! Checksum behaviour of the streaming downloader. -/

theorem streamFresh_mismatch_spec (server : Server) (fs : List (String × List Nat))
    (dest h : String) (hfs : (fs.map Prod.fst).Nodup) :
    (∀ eh g, (streamFresh server fs dest (some h)).2
          = Except.error (DlError.checksumMismatch eh g) →
        alGet (streamFresh server fs dest (some h)).1 dest = none)
    ∧ (∀ d, (streamFresh server fs dest (some h)).2 = Except.ok d → d = h) := by
  have hnd2 : ((alSet (alSet fs dest []) dest (server none).2).map Prod.fst).Nodup :=
    keys_alSet_nodup _ _ _ (keys_alSet_nodup _ _ _ hfs)
  by_cases hst : (server none).1 = 200 ∨ (server none).1 = 206
  · by_cases hdig : sha256hex (server none).2 = h
    · constructor
      · intro eh g herr
        simp only [streamFresh, hst, if_true, hdig, ite_true] at herr
        exact absurd herr (by simp)
      · intro d hok
        simp only [streamFresh, hst, if_true, hdig, ite_true] at hok
        simp only [Except.ok.injEq] at hok
        exact hok.symm
    · constructor
      · intro eh g herr
        simp only [streamFresh, hst, if_true, hdig, ite_false] at herr ⊢
        exact alGet_alErase_self _ _ hnd2
      · intro d hok
        simp only [streamFresh, hst, if_true, hdig, ite_false] at hok
        exact absurd hok (by simp)
  · constructor
    · intro eh g herr
      simp only [streamFresh, hst, if_false] at herr
      exact absurd herr (by simp)
    · intro d hok
      simp only [streamFresh, hst, if_false] at hok
      exact absurd hok (by simp)

theorem streamFresh_keys_nodup (server : Server) (fs : List (String × List Nat))
    (dest : String) (eh : Option String) (hfs : (fs.map Prod.fst).Nodup) :
    (((streamFresh server fs dest eh).1).map Prod.fst).Nodup := by
  have h1 := keys_alSet_nodup fs dest ([] : List Nat) hfs
  have h2 := keys_alSet_nodup _ dest (server none).2 h1
  cases eh with
  | none =>
      simp only [streamFresh]
      split
      · exact h2
      · exact h1
  | some h3 =>
      simp only [streamFresh]
      split
      · split
        · exact h2
        · exact h2.sublist (keys_alErase_sublist _ _)
      · exact h1

theorem streamToFile_mismatch_spec (server : Server) (fs : List (String × List Nat))
    (dest h : String) (resume : Bool) (hfs : (fs.map Prod.fst).Nodup) :
    (∀ eh g, (streamToFile server fs dest (some h) resume).2
          = Except.error (DlError.checksumMismatch eh g) →
        alGet (streamToFile server fs dest (some h) resume).1 dest = none)
    ∧ (∀ d, (streamToFile server fs dest (some h) resume).2 = Except.ok d → d = h) := by
  cases resume with
  | false =>
      have hf := streamFresh_mismatch_spec server fs dest h hfs
      simpa only [streamToFile, Bool.false_eq_true, ite_false, eq_self_iff_true,
        ite_true] using hf
  | true =>
      cases halg : alGet fs dest with
      | none =>
          have hf := streamFresh_mismatch_spec server fs dest h hfs
          simpa only [streamToFile, halg, ite_true, eq_self_iff_true] using hf
      | some b =>
          by_cases hb : b.length = 0
          · have hf := streamFresh_mismatch_spec server fs dest h hfs
            simpa only [streamToFile, halg, hb, ite_true, eq_self_iff_true] using hf
          · have hnd1 : ((alSet fs dest ([] : List Nat)).map Prod.fst).Nodup :=
              keys_alSet_nodup _ _ _ hfs
            by_cases h200 : (server (some b.length)).1 = 200
            · cases hsf : streamFresh server (alSet fs dest []) dest (some h) with
              | mk fs2 r2 =>
                  have hfnodup : (fs2.map Prod.fst).Nodup := by
                    have h3 := streamFresh_keys_nodup server (alSet fs dest []) dest (some h) hnd1
                    rw [hsf] at h3
                    exact h3
                  have hf := streamFresh_mismatch_spec server (alSet fs dest []) dest h hnd1
                  rw [hsf] at hf
                  cases r2 with
                  | error e =>
                      constructor
                      · intro eh g herr
                        simp only [streamToFile, halg, hb, h200, Option.getD_some, ite_true,
                          ite_false, if_true, eq_self_iff_true] at herr ⊢
                        rw [hsf] at herr ⊢
                        exact hf.1 eh g herr
                      · intro d hok
                        simp only [streamToFile, halg, hb, h200, Option.getD_some, ite_true,
                          ite_false, if_true, eq_self_iff_true] at hok
                        rw [hsf] at hok
                        exact absurd hok (by simp)
                  | ok d0 =>
                      by_cases hdig : sha256hex b = h
                      · constructor
                        · intro eh g herr
                          simp only [streamToFile, halg, hb, h200, Option.getD_some, ite_true,
                            ite_false, if_true, eq_self_iff_true] at herr
                          rw [hsf] at herr
                          simp only [hdig, ite_true] at herr
                          exact absurd herr (by simp)
                        · intro d hok
                          simp only [streamToFile, halg, hb, h200, Option.getD_some, ite_true,
                            ite_false, if_true, eq_self_iff_true] at hok
                          rw [hsf] at hok
                          simp only [hdig, ite_true] at hok
                          simp only [Except.ok.injEq] at hok
                          exact hok.symm
                      · constructor
                        · intro eh g herr
                          simp only [streamToFile, halg, hb, h200, Option.getD_some, ite_true,
                            ite_false, if_true, eq_self_iff_true] at herr ⊢
                          rw [hsf] at herr ⊢
                          simp only [hdig, ite_false] at herr ⊢
                          exact alGet_alErase_self _ _ hfnodup
                        · intro d hok
                          simp only [streamToFile, halg, hb, h200, Option.getD_some, ite_true,
                            ite_false, if_true, eq_self_iff_true] at hok
                          rw [hsf] at hok
                          simp only [hdig, ite_false] at hok
                          exact absurd hok (by simp)
            · by_cases h206 : (server (some b.length)).1 = 206
              · by_cases hdig : sha256hex (b ++ (server (some b.length)).2) = h
                · constructor
                  · intro eh g herr
                    simp only [streamToFile, halg, hb, h200, h206, Option.getD_some,
                      hdig, ite_true, ite_false, if_false, eq_self_iff_true] at herr
                    exact absurd herr (by simp)
                  · intro d hok
                    simp only [streamToFile, halg, hb, h200, h206, Option.getD_some,
                      hdig, ite_true, ite_false, if_false, eq_self_iff_true] at hok
                    have hok2 : h = d := by simpa using hok
                    exact hok2.symm
                · have hnd2 : ((alSet fs dest
                      (b ++ (server (some b.length)).2)).map Prod.fst).Nodup :=
                    keys_alSet_nodup _ _ _ hfs
                  constructor
                  · intro eh g herr
                    simp only [streamToFile, halg, hb, h200, h206, Option.getD_some,
                      hdig, ite_true, ite_false, if_false, eq_self_iff_true] at herr ⊢
                    exact alGet_alErase_self _ _ hnd2
                  · intro d hok
                    simp only [streamToFile, halg, hb, h200, h206, Option.getD_some,
                      hdig, ite_true, ite_false, if_false, eq_self_iff_true] at hok
                    exact absurd hok (by simp)
              · constructor
                · intro eh g herr
                  simp only [streamToFile, halg, hb, h200, h206, Option.getD_some,
                    ite_true, ite_false, if_false, eq_self_iff_true] at herr
                  exact absurd herr (by simp)
                · intro d hok
                  simp only [streamToFile, halg, hb, h200, h206, Option.getD_some,
                    ite_true, ite_false, if_false, eq_self_iff_true] at hok
                  exact absurd hok (by simp)

theorem alSet_append_singleton {α : Type} (l : List (String × α)) (k : String) (v w : α)
    (h : k ∉ l.map Prod.fst) : alSet (l ++ [(k, v)]) k w = l ++ [(k, w)] := by
  induction l with
  | nil => simp [alSet]
  | cons head tail ih =>
      obtain ⟨k2, v2⟩ := head
      simp only [List.map_cons, List.mem_cons] at h
      push_neg at h
      have h2 : ¬ k2 = k := fun hh => h.1 hh.symm
      simp [alSet, h2, ih h.2]

/-- C4: checksum-mismatch atomicity.  For `_streamToFile` with an expected
hash: whenever it fails with a checksum-mismatch error the destination file
has been deleted, and whenever it succeeds the reported digest equals the
expected hash (so a disagreeing digest can never yield success).  For
`downloadSample`: when the fetched payload's SHA-256 disagrees with the
expected hash, the temp file is deleted and the call fails with the
checksum error, returning the state unchanged — no file at the destination
and no cache entry.  An erroring `downloadPack` leaves the manifest without
any new entry. -/
theorem c4_checksum_mismatch_atomicity (server : Server) (fs : List (String × List Nat))
    (dest h : String) (resume : Bool) (env : Env) (s : CacheState)
    (url dk tempName : String)
    (hfs : (fs.map Prod.fst).Nodup)
    (htemp : tempName ∉ s.fs.map Prod.fst) :
    (∀ eh g, (streamToFile server fs dest (some h) resume).2
          = Except.error (DlError.checksumMismatch eh g) →
        alGet (streamToFile server fs dest (some h) resume).1 dest = none)
    ∧ (∀ d, (streamToFile server fs dest (some h) resume).2 = Except.ok d → d = h)
    ∧ ((server none).1 = 200 → ¬ sha256hex (server none).2 = h →
        downloadSample env server s url dk tempName (some h)
          = (s, Except.error (DlError.checksumMismatch h (sha256hex (server none).2))))
    ∧ (∀ e2, (downloadPack env server s url (some h)).2 = Except.error e2 →
        ((downloadPack env server s url (some h)).1).manifest = s.manifest) := by
  refine ⟨(streamToFile_mismatch_spec server fs dest h resume hfs).1,
    (streamToFile_mismatch_spec server fs dest h resume hfs).2, ?_, ?_⟩
  · intro h200 hdig
    have hmis : hashMismatch (some h) (sha256hex (server none).2) = true := by
      simp [hashMismatch, hdig]
    simp only [downloadSample, h200, if_true, hmis, ite_true, eq_self_iff_true]
    rw [alSet_of_not_mem _ _ _ htemp, alSet_append_singleton _ _ _ _ htemp,
      alErase_append_singleton _ _ _ htemp]
    simp [Option.getD]
  · intro e2 herr
    simp only [downloadPack] at herr ⊢
    cases hst : streamToFile server s.fs (packTarget url) (some h) true with
    | mk fs1 r =>
        rw [hst] at herr
        cases r with
        | error e3 => rfl
        | ok d => exact Except.noConfusion herr

/-- Witness for C4: a server answering a one-byte payload against the wrong
expected hash: `downloadSample` fails with the checksum error and returns
the state unchanged. -/
theorem c4_checksum_mismatch_witness :
    ((always200 [97]) none).1 = 200
    ∧ ¬ sha256hex ((always200 [97]) none).2 = "x"
    ∧ downloadSample env0 (always200 [97]) st0 "u" "d" "t" (some "x")
        = (st0, Except.error (DlError.checksumMismatch "x" (sha256hex [97]))) :=
  ⟨rfl, by decide,
   (c4_checksum_mismatch_atomicity (always200 [97]) [] "d" "x" false env0 st0 "u" "d" "t"
      (by decide) (by decide)).2.2.1 rfl (by decide)⟩

/-- C2 counterexample: at K = 0 (an empty partial file pre-written at the
destination) the code computes `start = 0` and sends a plain GET with no
`Range` header — not `Range: bytes=0-` as the claim asserts for every K in
range. -/
theorem c2_resume_counterexample :
    ¬ (streamRangeHeader [("d", ([] : List Nat))] "d" true = some 0) := by
  decide

/-- C2 (amended): against a Range-honouring server serving a fixed payload,
with the first K bytes pre-written at the destination (0 ≤ K ≤ len-1),
`_streamToFile` sends `Range: bytes=K-` when K ≥ 1 and a plain GET when
K = 0; in both cases it completes with the destination byte-equal to the
full payload and the finalized SHA-256 equal to the hash of the whole file
(the running hash is seeded with the existing K bytes before streaming). -/
theorem c2_resume_amended (payload : List Nat) (K : Nat) (fs : List (String × List Nat))
    (dest : String) (hK : K < payload.length)
    (hpre : alGet fs dest = some (payload.take K)) :
    streamRangeHeader fs dest true = (if K = 0 then none else some K)
    ∧ streamToFile (rangeServer payload) fs dest (some (sha256hex payload)) true
        = (alSet fs dest payload, Except.ok (sha256hex payload)) := by
  have hlen : (payload.take K).length = K := by
    rw [List.length_take]
    exact Nat.min_eq_left (Nat.le_of_lt hK)
  by_cases hK0 : K = 0
  · subst hK0
    constructor
    · simp [streamRangeHeader, hpre]
    · simp [streamToFile, streamFresh, hpre, rangeServer, alSet_alSet]
  · constructor
    · simp [streamRangeHeader, hpre, hlen, hK0]
    · simp [streamToFile, hpre, hlen, hK0, rangeServer, Option.getD_some,
        List.take_append_drop]

/-- Witness for C2 at payload `[5, 6, 7]` and K = 1. -/
theorem c2_resume_witness :
    (1 < ([5, 6, 7] : List Nat).length)
    ∧ alGet [("d", ([5] : List Nat))] "d" = some ([5, 6, 7].take 1)
    ∧ streamRangeHeader [("d", ([5] : List Nat))] "d" true = some 1
    ∧ streamToFile (rangeServer [5, 6, 7]) [("d", [5])] "d" (some (sha256hex [5, 6, 7])) true
        = (alSet [("d", [5])] "d" [5, 6, 7], Except.ok (sha256hex [5, 6, 7])) := by
  refine ⟨by decide, by decide, ?_, ?_⟩
  · have h1 := (c2_resume_amended [5, 6, 7] 1 [("d", [5])] "d" (by decide) (by decide)).1
    simpa using h1
  · exact (c2_resume_amended [5, 6, 7] 1 [("d", [5])] "d" (by decide) (by decide)).2

/-- C1: evaluation of the range-not-honoured fallback at a concrete failing
input.  Payload "ab", partial file "a" on disk, a server that always
answers 200 with the full payload, and the correct full-payload hash
supplied: the recursive restart writes the byte-correct full file, but the
outer invocation finalizes its hash over only the stale partial bytes,
concludes a checksum mismatch, deletes the (correct) file and throws — the
operation ends with an error and no destination file, where the claim (and
the spec's intent) demands success with the full file in place and the
full-payload hash reported. -/
theorem c1_range_fallback_code_eval :
    streamToFile (always200 [97, 98]) [("d", [97])] "d" (some (sha256hex [97, 98])) true
      = ([], Except.error (DlError.checksumMismatch (sha256hex [97, 98]) (sha256hex [97]))) := by
  rfl

/-- Witness for C9: with the failing-write environment, a concrete add
completes while the on-disk manifest stays stale. -/
theorem c9_save_error_witness :
    envNoSave.saveOk = false
    ∧ ((addSample envNoSave st0 "p" [1]).1).savedManifest = st0.savedManifest :=
  ⟨rfl, (c9_save_error_amended envNoSave st0 "p" "q" "http://h/x" [1] (always200 [1])
      none rfl).1⟩
